import Mathlib

/-!
# Knight path enumeration (`chessKnightMoves.c`)

A shallow embedding of `chessKnightMoves.c` (the search, the stack functions, the notation
functions and the printing) and proofs about it.

Modelling conventions.
* A `struct list *` is a Lean list of its nodes, head first; `NULL` is `[]`.  Every node keeps
  its `data` and its `itemCount` field, exactly as `push` and `duplicateStack` fill them in.
* `int **visited` is an 8x8 grid of `int` cells.  It is a total map from (row, column) to the cell
  value; `findPaths` reads and writes it only at indices that passed `isValid`.
* The global `maxMoves` is a parameter.  The global `numOfPaths`, the sequence of stacks handed
  to `printStackAsQueue` and the flag `aborted` form the threaded state `Run`.
* Rows, columns and `itemCount` are mathematical integers; they stay far below the `int` range.
  The increment of the `int` counter `numOfPaths` wraps around at 2^31 (`intWrap`).
* `clearStack` frees a cell and then reads its `next` field.  That read of freed memory is
  undefined; the program as built stops there.  The model sets `aborted` at that point and
  performs nothing after it, so a `Run` records what was counted and printed up to the first
  such read.
* `malloc` is assumed to succeed.
-/

namespace ChessKnightMoves

/-! ## Constants and data structures -/

/-- Macro `TRUE` of the source. -/
def TRUE : Int := 1

/-- Macro `FALSE` of the source. -/
def FALSE : Int := 0

/-- Row displacements of the 8 knight moves, in table order. -/
def move_row : List Int := [2, 2, -2, -2, 1, 1, -1, -1]

/-- Column displacements of the 8 knight moves, in table order. -/
def move_col : List Int := [-1, 1, 1, -1, 2, -2, 2, -2]

/-- The `struct node` of the source: a board position. -/
structure graphNode where
  row : Int
  column : Int
deriving DecidableEq, Repr

/-- One cell of a `struct list` (the `next` pointer is the tail of the Lean list). -/
structure listNode where
  data : graphNode
  itemCount : Int
deriving DecidableEq, Repr

/-- The `list` typedef of the source: a stack, head first; `NULL` is `[]`. -/
abbrev list := List listNode

/-- The `int **visited` grid. -/
abbrev Grid := Int → Int → Int

/-- The global counter `numOfPaths`, the stacks printed so far (oldest first), and whether the
run has read freed memory; once `aborted` is set nothing more is executed. -/
structure Run where
  numOfPaths : Int
  printed : List list
  aborted : Bool

/-- The value an `int` holds after an arithmetic result `x`: reduced to the range from -2^31 to
2^31 - 1.  It is applied to `numOfPaths++`. -/
def intWrap (x : Int) : Int :=
  (x + 2147483648) % 4294967296 - 2147483648

/-! ## Stack functions -/

/-- The function `initStack`: one cell with `itemCount = 1`.  The source leaves `data` unset; the
caller assigns it right away, and `⟨0, 0⟩` stands for the unset value. -/
def initStack : list := [⟨⟨0, 0⟩, 1⟩]

/-- The function `push`: a new head whose `itemCount` is one more than the old head's.  The source
dereferences `root`; the function is only ever called on a non-`NULL` stack. -/
def push (root : list) (data : graphNode) : list :=
  match root with
  | [] => []
  | r :: next => ⟨data, r.itemCount + 1⟩ :: r :: next

/-- The function `duplicateStack`: a cell by cell copy (`data` and `itemCount`), same order. -/
def duplicateStack (root : list) : list :=
  match root with
  | [] => []
  | curr :: next => ⟨curr.data, curr.itemCount⟩ :: duplicateStack next

/-- The function `clearStack`: `for (curr = root; curr != NULL; curr = curr->next) pop(curr);`.
On `NULL` the loop does nothing.  On a stack with a cell, `pop` frees `curr` and the step of the
loop then reads `curr->next` from the freed cell: the run is aborted. -/
def clearStack (root : list) (s : Run) : Run :=
  match root with
  | [] => s
  | _ :: _ => ⟨s.numOfPaths, s.printed, true⟩

/-- The first loop of `printStackAsQueue`: every cell of the stack is put in front of the queue
built so far, so the bottom of the stack comes out first. -/
def stackAsQueue (root : list) : list :=
  root.foldl (fun queueRoot curr => ⟨curr.data, curr.itemCount⟩ :: queueRoot) []

/-! ## Board -/

/-- The function `isValid`. -/
def isValid (v : graphNode) : Int :=
  if v.row < 0 ∨ v.column < 0 ∨ v.column ≥ 8 ∨ v.row ≥ 8 then FALSE else TRUE

/-- The neighbour `v` of `u` computed at iteration `i` of the loop of `findPaths`. -/
def neighbour (u : graphNode) (i : Nat) : graphNode :=
  ⟨u.row + move_row.getD i 0, u.column + move_col.getD i 0⟩

/-- The copy `newVisited` of `visited` with the cell of `v` set to `TRUE`. -/
def markVisited (visited : Grid) (v : graphNode) : Grid :=
  fun r c => if r = v.row ∧ c = v.column then TRUE else visited r c

/-! ## The search -/

/-- The `for` loop of `findPaths` from iteration `i` on, for the stack `u :: rest`, followed by
the `clearStack(activeList)` after the loop.  Nothing is executed once the run is aborted.
Reaching `dest` increments `numOfPaths`, pushes `v`, calls `printStackAsQueue` (which prints the
stack and then calls `clearStack` on its queue), calls `clearStack(activeList)` and returns, so
the later iterations do not run.  The recursive call
`findPaths(source, dest, newVisited, newBranchList)` is the `match`: the `NULL` test of
`findPaths`, then its loop from iteration `0` on the new stack; the call is made only while
`itemCount < maxMoves` and its stack has `itemCount` one higher, which is the termination
measure.  The `free` of the rows of `visited` comes after a `clearStack` and has no effect of its
own on the state. -/
def findPathsFrom (maxMoves : Int) (source dest : graphNode) (visited : Grid)
    (u : listNode) (rest : list) (i : Nat) (s : Run) : Run :=
  if s.aborted = true then s
  else if i < 8 then
    if isValid (neighbour u.data i) ≠ 0 ∧
        visited (neighbour u.data i).row (neighbour u.data i).column = 0 then
      if (neighbour u.data i).row = dest.row ∧ (neighbour u.data i).column = dest.column then
        clearStack (push (u :: rest) (neighbour u.data i))
          (clearStack (stackAsQueue (push (u :: rest) (neighbour u.data i)))
            ⟨intWrap (s.numOfPaths + 1),
              s.printed ++ [push (u :: rest) (neighbour u.data i)], s.aborted⟩)
      else if u.itemCount < maxMoves then
        match hb : push (duplicateStack (u :: rest)) (neighbour u.data i) with
        | [] => findPathsFrom maxMoves source dest visited u rest (i + 1) s
        | u' :: rest' =>
          findPathsFrom maxMoves source dest visited u rest (i + 1)
            (findPathsFrom maxMoves source dest (markVisited visited (neighbour u.data i))
              u' rest' 0 s)
      else findPathsFrom maxMoves source dest visited u rest (i + 1) s
    else findPathsFrom maxMoves source dest visited u rest (i + 1) s
  else clearStack (u :: rest) s
termination_by ((maxMoves - u.itemCount).toNat, 8 - i)
decreasing_by
  all_goals simp_wf
  all_goals first
    | (right; omega)
    | (left
       simp only [push, duplicateStack, List.cons.injEq] at hb
       obtain ⟨rfl, -⟩ := hb
       simp only
       omega)

/-- The function `findPaths`.  On a `NULL` stack it prints an error message, which is no path, and
returns at once; otherwise it runs its loop from iteration `0`. -/
def findPaths (maxMoves : Int) (source dest : graphNode) (visited : Grid)
    (activeList : list) (s : Run) : Run :=
  match activeList with
  | [] => s
  | u :: rest => findPathsFrom maxMoves source dest visited u rest 0 s

/-- The seeding done by `main` and its call of `findPaths`: the stack holds `source` only, the
grid is `FALSE` everywhere except at `source`, and `numOfPaths` is `0`. -/
def search (maxMoves : Int) (source dest : graphNode) : Run :=
  findPaths maxMoves source dest (markVisited (fun _ _ => FALSE) source)
    (initStack.map fun c => ⟨source, c.itemCount⟩) ⟨0, [], false⟩

/-- The squares of a printed stack in the order `printStackAsQueue` prints them. -/
def travel (p : list) : List graphNode :=
  (stackAsQueue p).map listNode.data

/-- The stacks printed by the loop of `findPaths` from iteration `i` on, started with nothing
printed yet. -/
def emitted (maxMoves : Int) (source dest : graphNode) (visited : Grid)
    (u : listNode) (rest : list) (i : Nat) : List list :=
  (findPathsFrom maxMoves source dest visited u rest i ⟨0, [], false⟩).printed

/-! ## Notation and printing

A C string is a Lean `String` whose characters have codes below 256, one `char` each; reading
the character after its last one gives the terminating NUL.  The rank character written by
`coordinatesToPos` is the `int` value reduced modulo 256.  A character read by `posToCoordinates`
is promoted to `int` as a signed `char` (`charAsInt`).  `none` is the `NULL` result of either
function.
-/

/-- The `int` value of a `char`: `char` is signed on the platform the program is built for, so
the codes 0 to 127 are read as they are and the codes 128 to 255 as the code minus 256. -/
def charAsInt (c : Char) : Int :=
  if c.toNat % 256 < 128 then ((c.toNat % 256 : Nat) : Int) else ((c.toNat % 256 : Nat) : Int) - 256

/-- The function `coordinatesToPos`: the `switch` on the column gives the file letter (`NULL` in
the `default` case), and the rank character is `(char)8 - coordinates.row + '0'`. -/
def coordinatesToPos (coordinates : graphNode) : Option String :=
  if coordinates.column = 0 then
    some (String.mk ['A', Char.ofNat ((8 - coordinates.row + ('0'.toNat : Int)) % 256).toNat])
  else if coordinates.column = 1 then
    some (String.mk ['B', Char.ofNat ((8 - coordinates.row + ('0'.toNat : Int)) % 256).toNat])
  else if coordinates.column = 2 then
    some (String.mk ['C', Char.ofNat ((8 - coordinates.row + ('0'.toNat : Int)) % 256).toNat])
  else if coordinates.column = 3 then
    some (String.mk ['D', Char.ofNat ((8 - coordinates.row + ('0'.toNat : Int)) % 256).toNat])
  else if coordinates.column = 4 then
    some (String.mk ['E', Char.ofNat ((8 - coordinates.row + ('0'.toNat : Int)) % 256).toNat])
  else if coordinates.column = 5 then
    some (String.mk ['F', Char.ofNat ((8 - coordinates.row + ('0'.toNat : Int)) % 256).toNat])
  else if coordinates.column = 6 then
    some (String.mk ['G', Char.ofNat ((8 - coordinates.row + ('0'.toNat : Int)) % 256).toNat])
  else if coordinates.column = 7 then
    some (String.mk ['H', Char.ofNat ((8 - coordinates.row + ('0'.toNat : Int)) % 256).toNat])
  else none

/-- The function `posToCoordinates`: the `switch` on `pos[0]` gives the column (`NULL` in the
`default` case), and the row is `8 - pos[1] + '0'`; `pos[1]` is not tested. -/
def posToCoordinates (pos : String) : Option graphNode :=
  if charAsInt (pos.toList.getD 0 (Char.ofNat 0)) = ('A'.toNat : Int) then
    some ⟨8 - charAsInt (pos.toList.getD 1 (Char.ofNat 0)) + ('0'.toNat : Int), 0⟩
  else if charAsInt (pos.toList.getD 0 (Char.ofNat 0)) = ('B'.toNat : Int) then
    some ⟨8 - charAsInt (pos.toList.getD 1 (Char.ofNat 0)) + ('0'.toNat : Int), 1⟩
  else if charAsInt (pos.toList.getD 0 (Char.ofNat 0)) = ('C'.toNat : Int) then
    some ⟨8 - charAsInt (pos.toList.getD 1 (Char.ofNat 0)) + ('0'.toNat : Int), 2⟩
  else if charAsInt (pos.toList.getD 0 (Char.ofNat 0)) = ('D'.toNat : Int) then
    some ⟨8 - charAsInt (pos.toList.getD 1 (Char.ofNat 0)) + ('0'.toNat : Int), 3⟩
  else if charAsInt (pos.toList.getD 0 (Char.ofNat 0)) = ('E'.toNat : Int) then
    some ⟨8 - charAsInt (pos.toList.getD 1 (Char.ofNat 0)) + ('0'.toNat : Int), 4⟩
  else if charAsInt (pos.toList.getD 0 (Char.ofNat 0)) = ('F'.toNat : Int) then
    some ⟨8 - charAsInt (pos.toList.getD 1 (Char.ofNat 0)) + ('0'.toNat : Int), 5⟩
  else if charAsInt (pos.toList.getD 0 (Char.ofNat 0)) = ('G'.toNat : Int) then
    some ⟨8 - charAsInt (pos.toList.getD 1 (Char.ofNat 0)) + ('0'.toNat : Int), 6⟩
  else if charAsInt (pos.toList.getD 0 (Char.ofNat 0)) = ('H'.toNat : Int) then
    some ⟨8 - charAsInt (pos.toList.getD 1 (Char.ofNat 0)) + ('0'.toNat : Int), 7⟩
  else none

/-- The second loop of `printStackAsQueue`: the text printed for the queue, the notation of each
cell followed by `" -> "` when another cell follows.  When `coordinatesToPos` returns `NULL` the
source passes `NULL` to `printf`, which is undefined: the result is `none`. -/
def printQueue : list → Option String
  | [] => some ""
  | curr :: next =>
    match coordinatesToPos curr.data with
    | none => none
    | some boardPos =>
      match printQueue next with
      | none => none
      | some out =>
        some (boardPos ++ (match next with
          | [] => ""
          | _ :: _ => " -> ") ++ out)

/-- The function `printStackAsQueue`: the text it prints.  The `clearStack(queueRoot)` that
follows the printing is part of `findPathsFrom`. -/
def printStackAsQueue (root : list) : Option String :=
  match root with
  | [] => some "cannot print an empty stack \n"
  | _ :: _ =>
    match printQueue (stackAsQueue root) with
    | none => none
    | some out => some (out ++ "\n")

/-- The algebraic notation of a square as the specification words it: file letter `A`..`H` for
columns 0..7 from left to right, rank digit `8` for row 0 down to `1` for row 7. -/
def algebraic (sq : graphNode) : String :=
  String.mk ["ABCDEFGH".toList.getD sq.column.toNat ' ', "87654321".toList.getD sq.row.toNat ' ']

/-! ## Describing printed paths by their moves -/

/-- The stack obtained from `u :: rest` by making the moves with table indices `ks` one after the
other, each square pushed the way `findPaths` pushes it. -/
def extend (u : listNode) (rest : list) : List Nat → list
  | [] => u :: rest
  | k :: ks => extend ⟨neighbour u.data k, u.itemCount + 1⟩ (u :: rest) ks

/-- The squares reached from `a` by the moves with table indices `ks`, in travel order. -/
def walk (a : graphNode) : List Nat → List graphNode
  | [] => []
  | k :: ks => neighbour a k :: walk (neighbour a k) ks

/-- The condition under which iteration `k` of the loop at square `a` is reached from iteration
`i` and passes the test on `v`: no earlier iteration from `i` on returned. -/
def Reaches (dest : graphNode) (visited : Grid) (a : graphNode) (i k : Nat) : Prop :=
  i ≤ k ∧ k < 8 ∧ isValid (neighbour a k) ≠ 0 ∧
    visited (neighbour a k).row (neighbour a k).column = 0 ∧
    ∀ j, i ≤ j → j < k →
      ¬ (isValid (neighbour a j) ≠ 0 ∧
          visited (neighbour a j).row (neighbour a j).column = 0 ∧ neighbour a j = dest)

/-- A condition met by every move sequence `ks` that the loop prints when run from iteration `i`
at a stack whose head holds square `a` with `itemCount = c`, under the grid `visited`: every move
is made at an iteration that is reached and passes the tests, the last one lands on `dest`, and
the earlier ones are made below the move limit. -/
def Emits (maxMoves : Int) (dest : graphNode) :
    Grid → graphNode → Int → Nat → List Nat → Prop
  | _, _, _, _, [] => False
  | visited, a, _, i, [k] => Reaches dest visited a i k ∧ neighbour a k = dest
  | visited, a, c, i, k :: k' :: ks =>
      Reaches dest visited a i k ∧ neighbour a k ≠ dest ∧ c < maxMoves ∧
        Emits maxMoves dest (markVisited visited (neighbour a k)) (neighbour a k) (c + 1) 0
          (k' :: ks)

/-- The table index of the move from `a` to `b` (`8` when `b` is no knight move from `a`). -/
def moveIndex (a b : graphNode) : Nat :=
  ((List.range 8).find? fun k => decide (neighbour a k = b)).getD 8

/-- The square `b` differs from `a` by exactly one entry of the (`move_row`, `move_col`) table. -/
def knightMove (a b : graphNode) : Prop :=
  ∃! k : Nat, k < 8 ∧ b.row = a.row + move_row.getD k 0 ∧ b.column = a.column + move_col.getD k 0

/-- A sequence of on-board squares from `source` to `dest`, each one knight move from the one
before it. -/
def knightWalk (source dest : graphNode) (w : List graphNode) : Prop :=
  w.head? = some source ∧ w.getLast? = some dest ∧ (∀ sq ∈ w, isValid sq = TRUE) ∧
    List.Chain' knightMove w

/-- A simple knight path from `source` to `dest` of at most `maxMoves` moves: a knight walk
without a repeated square and with at most `maxMoves + 1` squares. -/
def simpleKnightPath (maxMoves : Int) (source dest : graphNode) (w : List graphNode) : Prop :=
  knightWalk source dest w ∧ w.Nodup ∧ (w.length : Int) ≤ maxMoves + 1

/-! ## The algorithm of the specification, and the calls of `findPaths` -/

/-- Steps 2 to 7 of the algorithm of the specification, for the branch with path `P` (in travel
order) ending at `u` and visited set `V`: all 8 offsets are tried in table order, also after one
of them has reached `dest`.  The number `m` is the move limit minus the length of `P`, so the test
of step 5, "current Path length < max_moves", is `m > 0`. -/
def specBranch (dest : graphNode) :
    Nat → List graphNode → graphNode → List graphNode → List (List graphNode)
  | m, P, u, V =>
    (List.range 8).flatMap fun k =>
      if isValid (neighbour u k) = TRUE ∧ neighbour u k ∉ V then
        if neighbour u k = dest then [P ++ [neighbour u k]]
        else
          match m with
          | 0 => []
          | m' + 1 => specBranch dest m' (P ++ [neighbour u k]) (neighbour u k) (neighbour u k :: V)
      else []

/-- The search of the specification: step 1 seeds the path and the visited set with `source`. -/
def specSearch (maxMoves : Nat) (source dest : graphNode) : List (List graphNode) :=
  specBranch dest (maxMoves - 1) [source] source [source]

/-- The arguments `visited` and `activeList` of one invocation of `findPaths` (`source` and
`dest` are the same in every invocation). -/
structure Call where
  visited : Grid
  activeList : list

/-- The invocation `parent` makes the recursive call `child`: some iteration `i` of its loop is
reached (no earlier iteration returned), its square `v` is on board, unvisited and not `dest`,
the head's `itemCount` is below `maxMoves`, and `child` gets the copied grid with `v` marked and
the copied stack with `v` pushed. -/
def callsAt (maxMoves : Int) (dest : graphNode) (parent child : Call) : Prop :=
  ∃ u rest i, parent.activeList = u :: rest ∧ Reaches dest parent.visited u.data 0 i ∧
    neighbour u.data i ≠ dest ∧ u.itemCount < maxMoves ∧
    child = ⟨markVisited parent.visited (neighbour u.data i),
      push (duplicateStack (u :: rest)) (neighbour u.data i)⟩

/-- The invocations of `findPaths` reachable from the call made by `main`, following the text of
the loop.  A run is aborted at its first `clearStack`, so the calls made in a run are among
these. -/
inductive Invoked (maxMoves : Int) (source dest : graphNode) : Call → Prop
  | root : Invoked maxMoves source dest
      ⟨markVisited (fun _ _ => FALSE) source, initStack.map fun c => ⟨source, c.itemCount⟩⟩
  | step {parent child : Call} : Invoked maxMoves source dest parent →
      callsAt maxMoves dest parent child → Invoked maxMoves source dest child

/-! ## Basic facts about the stack functions and the loop -/

theorem duplicateStack_eq (root : list) : duplicateStack root = root := by
  induction root with
  | nil => rfl
  | cons c next ih => simp [duplicateStack, ih]

theorem push_cons (r : listNode) (next : list) (data : graphNode) :
    push (r :: next) data = ⟨data, r.itemCount + 1⟩ :: r :: next := rfl

theorem stackAsQueue_eq (root : list) : stackAsQueue root = root.reverse := by
  have h : ∀ (l q : list),
      l.foldl (fun queueRoot curr => (⟨curr.data, curr.itemCount⟩ : listNode) :: queueRoot) q
        = l.reverse ++ q := by
    intro l
    induction l with
    | nil => intro q; rfl
    | cons c next ih => intro q; simp [List.foldl, ih]
  simp [stackAsQueue, h root []]

theorem travel_eq (p : list) : travel p = (p.map listNode.data).reverse := by
  simp [travel, stackAsQueue_eq, List.map_reverse]

theorem isValid_ne_zero_iff (v : graphNode) :
    isValid v ≠ 0 ↔ 0 ≤ v.row ∧ v.row ≤ 7 ∧ 0 ≤ v.column ∧ v.column ≤ 7 := by
  unfold isValid TRUE FALSE
  split_ifs with h
  · constructor
    · intro h0; exact absurd rfl h0
    · intro h1; omega
  · constructor
    · intro _; omega
    · intro _; decide

theorem isValid_eq_TRUE_iff (v : graphNode) : isValid v = TRUE ↔ isValid v ≠ 0 := by
  unfold isValid TRUE FALSE
  split_ifs <;> simp

theorem clearStack_of_ne_nil {root : list} (h : root ≠ []) (s : Run) :
    clearStack root s = ⟨s.numOfPaths, s.printed, true⟩ := by
  cases root with
  | nil => exact absurd rfl h
  | cons c next => rfl

theorem intWrap_one : intWrap (0 + 1) = 1 := by decide

/-- One unfolding of the loop, with `push`, `duplicateStack` and `clearStack` computed. -/
theorem findPathsFrom_eq (maxMoves : Int) (source dest : graphNode) (visited : Grid)
    (u : listNode) (rest : list) (i : Nat) (s : Run) :
    findPathsFrom maxMoves source dest visited u rest i s =
      if s.aborted = true then s
      else if i < 8 then
        if isValid (neighbour u.data i) ≠ 0 ∧
            visited (neighbour u.data i).row (neighbour u.data i).column = 0 then
          if neighbour u.data i = dest then
            ⟨intWrap (s.numOfPaths + 1),
              s.printed ++ [⟨neighbour u.data i, u.itemCount + 1⟩ :: u :: rest], true⟩
          else if u.itemCount < maxMoves then
            findPathsFrom maxMoves source dest visited u rest (i + 1)
              (findPathsFrom maxMoves source dest (markVisited visited (neighbour u.data i))
                ⟨neighbour u.data i, u.itemCount + 1⟩ (u :: rest) 0 s)
          else findPathsFrom maxMoves source dest visited u rest (i + 1) s
        else findPathsFrom maxMoves source dest visited u rest (i + 1) s
      else ⟨s.numOfPaths, s.printed, true⟩ := by
  have hd : ∀ v : graphNode, (v.row = dest.row ∧ v.column = dest.column) ↔ v = dest := by
    intro v
    cases v; cases dest; simp
  rw [findPathsFrom]
  simp only [hd, push_cons]
  split_ifs with h1 h2 h3 h4 h5
  · rfl
  · have hq : ∀ (q : list) (t : Run), q ≠ [] →
        clearStack (⟨neighbour u.data i, u.itemCount + 1⟩ :: u :: rest) (clearStack q t)
          = ⟨t.numOfPaths, t.printed, true⟩ := by
      intro q t hq
      rw [clearStack_of_ne_nil hq]
      rfl
    exact hq _ _ (by simp [stackAsQueue_eq])
  · split
    · next hb => simp [duplicateStack, push] at hb
    · next u' rest' hb =>
      simp only [duplicateStack_eq, push_cons, List.cons.injEq] at hb
      obtain ⟨rfl, rfl⟩ := hb
      rfl
  · rfl
  · rfl
  · rfl

/-! ## The loop, iteration by iteration -/

section Loop

variable (maxMoves : Int) (source dest : graphNode)

theorem findPathsFrom_of_aborted (visited : Grid) (u : listNode) (rest : list) (i : Nat)
    (s : Run) (hs : s.aborted = true) :
    findPathsFrom maxMoves source dest visited u rest i s = s := by
  rw [findPathsFrom_eq, if_pos hs]

/-- Every run of the loop ends aborted: each way through it passes a `clearStack` of a stack
that has a cell. -/
theorem findPathsFrom_aborted (visited : Grid) (u : listNode) (rest : list) (i : Nat) (s : Run) :
    (findPathsFrom maxMoves source dest visited u rest i s).aborted = true := by
  refine findPathsFrom.induct maxMoves source dest
    (fun visited u rest i s =>
      (findPathsFrom maxMoves source dest visited u rest i s).aborted = true)
    ?_ ?_ ?_ ?_ ?_ ?_ ?_ visited u rest i s
  · intro visited u rest i s hs
    rw [findPathsFrom_of_aborted maxMoves source dest visited u rest i s hs]
    exact hs
  · intro visited u rest i s hs hi hv hd
    have hd' : neighbour u.data i = dest := by
      cases h : neighbour u.data i; cases dest; simp_all
    rw [findPathsFrom_eq, if_neg hs, if_pos hi, if_pos hv, if_pos hd']
  · intro visited u rest i s _ _ _ _ _ hb
    simp [duplicateStack, push] at hb
  · intro visited u rest i s hs hi hv hd hlt u' rest' hb ih1 ih2
    simp only [duplicateStack_eq, push_cons, List.cons.injEq] at hb
    obtain ⟨rfl, rfl⟩ := hb
    have hd' : ¬ neighbour u.data i = dest := by
      intro h; apply hd; rw [h]; exact ⟨rfl, rfl⟩
    rw [findPathsFrom_eq, if_neg hs, if_pos hi, if_pos hv, if_neg hd', if_pos hlt]
    exact ih2
  · intro visited u rest i s hs hi hv hd hlt ih
    have hd' : ¬ neighbour u.data i = dest := by
      intro h; apply hd; rw [h]; exact ⟨rfl, rfl⟩
    rw [findPathsFrom_eq, if_neg hs, if_pos hi, if_pos hv, if_neg hd', if_neg hlt]
    exact ih
  · intro visited u rest i s hs hi hv ih
    rw [findPathsFrom_eq, if_neg hs, if_pos hi, if_neg hv]
    exact ih
  · intro visited u rest i s hs hi
    rw [findPathsFrom_eq, if_neg hs, if_neg hi]

theorem findPathsFrom_done (visited : Grid) (u : listNode) (rest : list) (i : Nat) (s : Run)
    (hs : s.aborted = false) (hi : ¬ i < 8) :
    findPathsFrom maxMoves source dest visited u rest i s = ⟨s.numOfPaths, s.printed, true⟩ := by
  rw [findPathsFrom_eq, if_neg (by simp [hs]), if_neg hi]

theorem findPathsFrom_found (visited : Grid) (u : listNode) (rest : list) (i : Nat) (s : Run)
    (hs : s.aborted = false) (hi : i < 8)
    (hv : isValid (neighbour u.data i) ≠ 0 ∧
      visited (neighbour u.data i).row (neighbour u.data i).column = 0)
    (hd : neighbour u.data i = dest) :
    findPathsFrom maxMoves source dest visited u rest i s
      = ⟨intWrap (s.numOfPaths + 1),
          s.printed ++ [⟨neighbour u.data i, u.itemCount + 1⟩ :: u :: rest], true⟩ := by
  rw [findPathsFrom_eq, if_neg (by simp [hs]), if_pos hi, if_pos hv, if_pos hd]

/-- A recursive call ends aborted, so the iterations after it are not executed. -/
theorem findPathsFrom_descend (visited : Grid) (u : listNode) (rest : list) (i : Nat) (s : Run)
    (hs : s.aborted = false) (hi : i < 8)
    (hv : isValid (neighbour u.data i) ≠ 0 ∧
      visited (neighbour u.data i).row (neighbour u.data i).column = 0)
    (hd : ¬ neighbour u.data i = dest) (hlt : u.itemCount < maxMoves) :
    findPathsFrom maxMoves source dest visited u rest i s
      = findPathsFrom maxMoves source dest (markVisited visited (neighbour u.data i))
          ⟨neighbour u.data i, u.itemCount + 1⟩ (u :: rest) 0 s := by
  rw [findPathsFrom_eq, if_neg (by simp [hs]), if_pos hi, if_pos hv, if_neg hd, if_pos hlt]
  exact findPathsFrom_of_aborted maxMoves source dest visited u rest (i + 1) _
    (findPathsFrom_aborted maxMoves source dest _ _ _ _ _)

theorem findPathsFrom_skip_limit (visited : Grid) (u : listNode) (rest : list) (i : Nat)
    (s : Run) (hs : s.aborted = false) (hi : i < 8)
    (hv : isValid (neighbour u.data i) ≠ 0 ∧
      visited (neighbour u.data i).row (neighbour u.data i).column = 0)
    (hd : ¬ neighbour u.data i = dest) (hlt : ¬ u.itemCount < maxMoves) :
    findPathsFrom maxMoves source dest visited u rest i s
      = findPathsFrom maxMoves source dest visited u rest (i + 1) s := by
  rw [findPathsFrom_eq, if_neg (by simp [hs]), if_pos hi, if_pos hv, if_neg hd, if_neg hlt]

theorem findPathsFrom_skip_square (visited : Grid) (u : listNode) (rest : list) (i : Nat)
    (s : Run) (hs : s.aborted = false) (hi : i < 8)
    (hv : ¬ (isValid (neighbour u.data i) ≠ 0 ∧
      visited (neighbour u.data i).row (neighbour u.data i).column = 0)) :
    findPathsFrom maxMoves source dest visited u rest i s
      = findPathsFrom maxMoves source dest visited u rest (i + 1) s := by
  rw [findPathsFrom_eq, if_neg (by simp [hs]), if_pos hi, if_neg hv]

theorem emitted_done (visited : Grid) (u : listNode) (rest : list) (i : Nat) (hi : ¬ i < 8) :
    emitted maxMoves source dest visited u rest i = [] := by
  simp only [emitted]
  rw [findPathsFrom_done maxMoves source dest visited u rest i _ rfl hi]

theorem emitted_found (visited : Grid) (u : listNode) (rest : list) (i : Nat) (hi : i < 8)
    (hv : isValid (neighbour u.data i) ≠ 0 ∧
      visited (neighbour u.data i).row (neighbour u.data i).column = 0)
    (hd : neighbour u.data i = dest) :
    emitted maxMoves source dest visited u rest i
      = [⟨neighbour u.data i, u.itemCount + 1⟩ :: u :: rest] := by
  simp only [emitted]
  rw [findPathsFrom_found maxMoves source dest visited u rest i _ rfl hi hv hd]
  rfl

theorem emitted_descend (visited : Grid) (u : listNode) (rest : list) (i : Nat) (hi : i < 8)
    (hv : isValid (neighbour u.data i) ≠ 0 ∧
      visited (neighbour u.data i).row (neighbour u.data i).column = 0)
    (hd : ¬ neighbour u.data i = dest) (hlt : u.itemCount < maxMoves) :
    emitted maxMoves source dest visited u rest i
      = emitted maxMoves source dest (markVisited visited (neighbour u.data i))
          ⟨neighbour u.data i, u.itemCount + 1⟩ (u :: rest) 0 := by
  simp only [emitted]
  rw [findPathsFrom_descend maxMoves source dest visited u rest i _ rfl hi hv hd hlt]

theorem emitted_skip_limit (visited : Grid) (u : listNode) (rest : list) (i : Nat) (hi : i < 8)
    (hv : isValid (neighbour u.data i) ≠ 0 ∧
      visited (neighbour u.data i).row (neighbour u.data i).column = 0)
    (hd : ¬ neighbour u.data i = dest) (hlt : ¬ u.itemCount < maxMoves) :
    emitted maxMoves source dest visited u rest i
      = emitted maxMoves source dest visited u rest (i + 1) := by
  simp only [emitted]
  rw [findPathsFrom_skip_limit maxMoves source dest visited u rest i _ rfl hi hv hd hlt]

theorem emitted_skip_square (visited : Grid) (u : listNode) (rest : list) (i : Nat) (hi : i < 8)
    (hv : ¬ (isValid (neighbour u.data i) ≠ 0 ∧
      visited (neighbour u.data i).row (neighbour u.data i).column = 0)) :
    emitted maxMoves source dest visited u rest i
      = emitted maxMoves source dest visited u rest (i + 1) := by
  simp only [emitted]
  rw [findPathsFrom_skip_square maxMoves source dest visited u rest i _ rfl hi hv]

/-- Induction along the run of the loop: the five ways an iteration can go.  After a recursive
call nothing more of the loop is executed, so that case has the called loop as its only
premise. -/
theorem findPaths_induct (motive : Grid → listNode → list → Nat → Prop)
    (done : ∀ visited u rest i, ¬ i < 8 → motive visited u rest i)
    (found : ∀ visited u rest i, i < 8 →
      isValid (neighbour u.data i) ≠ 0 ∧
        visited (neighbour u.data i).row (neighbour u.data i).column = 0 →
      neighbour u.data i = dest → motive visited u rest i)
    (descend : ∀ visited u rest i, i < 8 →
      isValid (neighbour u.data i) ≠ 0 ∧
        visited (neighbour u.data i).row (neighbour u.data i).column = 0 →
      ¬ neighbour u.data i = dest → u.itemCount < maxMoves →
      motive (markVisited visited (neighbour u.data i))
        ⟨neighbour u.data i, u.itemCount + 1⟩ (u :: rest) 0 →
      motive visited u rest i)
    (skipLimit : ∀ visited u rest i, i < 8 →
      isValid (neighbour u.data i) ≠ 0 ∧
        visited (neighbour u.data i).row (neighbour u.data i).column = 0 →
      ¬ neighbour u.data i = dest → ¬ u.itemCount < maxMoves →
      motive visited u rest (i + 1) → motive visited u rest i)
    (skipSquare : ∀ visited u rest i, i < 8 →
      ¬ (isValid (neighbour u.data i) ≠ 0 ∧
        visited (neighbour u.data i).row (neighbour u.data i).column = 0) →
      motive visited u rest (i + 1) → motive visited u rest i)
    (visited : Grid) (u : listNode) (rest : list) (i : Nat) : motive visited u rest i := by
  have hd : ∀ v : graphNode, (v.row = dest.row ∧ v.column = dest.column) ↔ v = dest := by
    intro v
    cases v; cases dest; simp
  refine findPathsFrom.induct maxMoves dest dest
    (fun visited u rest i s => s.aborted = false → motive visited u rest i)
    ?_ ?_ ?_ ?_ ?_ ?_ ?_ visited u rest i ⟨0, [], false⟩ rfl
  · intro visited u rest i s hs hs'
    rw [hs] at hs'
    exact absurd hs' (by decide)
  · intro visited u rest i s _ hi hv h _
    exact found visited u rest i hi hv ((hd _).1 h)
  · intro visited u rest i s _ _ _ _ _ hb
    simp [duplicateStack, push] at hb
  · intro visited u rest i s _ hi hv h hlt u' rest' hb ih1 _ hs'
    simp only [duplicateStack_eq, push_cons, List.cons.injEq] at hb
    obtain ⟨rfl, rfl⟩ := hb
    exact descend visited u rest i hi hv (fun e => h ((hd _).2 e)) hlt (ih1 hs')
  · intro visited u rest i s _ hi hv h hlt ih hs'
    exact skipLimit visited u rest i hi hv (fun e => h ((hd _).2 e)) hlt (ih hs')
  · intro visited u rest i s _ hi hv ih hs'
    exact skipSquare visited u rest i hi hv (ih hs')
  · intro visited u rest i s _ hi _
    exact done visited u rest i hi

/-- Started with the counter at 0, the loop leaves in `numOfPaths` the number of stacks it has
printed (0 or 1). -/
theorem findPathsFrom_count (visited : Grid) (u : listNode) (rest : list) (i : Nat) :
    (findPathsFrom maxMoves source dest visited u rest i ⟨0, [], false⟩).numOfPaths
      = ((emitted maxMoves source dest visited u rest i).length : Int) := by
  induction visited, u, rest, i using findPaths_induct maxMoves dest with
  | done visited u rest i hi =>
    rw [emitted_done maxMoves source dest visited u rest i hi,
      findPathsFrom_done maxMoves source dest visited u rest i _ rfl hi]
    rfl
  | found visited u rest i hi hv hd =>
    rw [emitted_found maxMoves source dest visited u rest i hi hv hd,
      findPathsFrom_found maxMoves source dest visited u rest i _ rfl hi hv hd]
    exact intWrap_one
  | descend visited u rest i hi hv hd hlt ih =>
    rw [emitted_descend maxMoves source dest visited u rest i hi hv hd hlt,
      findPathsFrom_descend maxMoves source dest visited u rest i _ rfl hi hv hd hlt]
    exact ih
  | skipLimit visited u rest i hi hv hd hlt ih =>
    rw [emitted_skip_limit maxMoves source dest visited u rest i hi hv hd hlt,
      findPathsFrom_skip_limit maxMoves source dest visited u rest i _ rfl hi hv hd hlt]
    exact ih
  | skipSquare visited u rest i hi hv ih =>
    rw [emitted_skip_square maxMoves source dest visited u rest i hi hv,
      findPathsFrom_skip_square maxMoves source dest visited u rest i _ rfl hi hv]
    exact ih

theorem Emits_ne_nil {visited : Grid} {a : graphNode} {c : Int} {i : Nat} {ks : List Nat}
    (h : Emits maxMoves dest visited a c i ks) : ks ≠ [] := by
  rintro rfl
  simp [Emits] at h

theorem Emits_head {visited : Grid} {a : graphNode} {c : Int} {i k : Nat} {ks : List Nat}
    (h : Emits maxMoves dest visited a c i (k :: ks)) : Reaches dest visited a i k := by
  cases ks with
  | nil => exact h.1
  | cons k' ks => exact h.1

theorem Reaches_weaken {visited : Grid} {a : graphNode} {i k : Nat}
    (h : Reaches dest visited a (i + 1) k)
    (hskip : ¬ (isValid (neighbour a i) ≠ 0 ∧
      visited (neighbour a i).row (neighbour a i).column = 0 ∧ neighbour a i = dest)) :
    Reaches dest visited a i k := by
  obtain ⟨h1, h2, h3, h4, h5⟩ := h
  refine ⟨by omega, h2, h3, h4, ?_⟩
  intro j hj hjk
  by_cases e : j = i
  · subst e; exact hskip
  · exact h5 j (by omega) hjk

theorem Emits_weaken {visited : Grid} {a : graphNode} {c : Int} {i : Nat} {ks : List Nat}
    (h : Emits maxMoves dest visited a c (i + 1) ks)
    (hskip : ¬ (isValid (neighbour a i) ≠ 0 ∧
      visited (neighbour a i).row (neighbour a i).column = 0 ∧ neighbour a i = dest)) :
    Emits maxMoves dest visited a c i ks := by
  match ks, h with
  | [k], h => exact ⟨Reaches_weaken dest h.1 hskip, h.2⟩
  | k :: k' :: ks, h => exact ⟨Reaches_weaken dest h.1 hskip, h.2⟩

/-- What the loop prints: the stacks of a list of move sequences, each of which satisfies `Emits`,
listed in strictly increasing lexicographic order. -/
theorem emitted_spec (visited : Grid) (u : listNode) (rest : list) (i : Nat) :
    ∃ L : List (List Nat),
      emitted maxMoves source dest visited u rest i = L.map (extend u rest) ∧
      L.Pairwise (List.Lex (· < ·)) ∧
      ∀ ks ∈ L, Emits maxMoves dest visited u.data u.itemCount i ks := by
  induction visited, u, rest, i using findPaths_induct maxMoves dest with
  | done visited u rest i hi =>
    exact ⟨[], by simp [emitted_done maxMoves source dest visited u rest i hi], by simp, by simp⟩
  | found visited u rest i hi hv hd =>
    refine ⟨[[i]], ?_, by simp, ?_⟩
    · rw [emitted_found maxMoves source dest visited u rest i hi hv hd]
      rfl
    · intro ks hks
      simp only [List.mem_singleton] at hks
      subst hks
      exact ⟨⟨le_refl _, hi, hv.1, hv.2, fun j h1 h2 => by omega⟩, hd⟩
  | descend visited u rest i hi hv hd hlt ih1 =>
    obtain ⟨L1, e1, p1, m1⟩ := ih1
    refine ⟨L1.map (fun ks => i :: ks), ?_, ?_, ?_⟩
    · rw [emitted_descend maxMoves source dest visited u rest i hi hv hd hlt, e1]
      simp [List.map_map, Function.comp_def, extend]
    · rw [List.pairwise_map]
      exact p1.imp (fun h => List.Lex.cons h)
    · intro ks hks
      obtain ⟨ks', hks', rfl⟩ := List.mem_map.1 hks
      have hm := m1 ks' hks'
      cases ks' with
      | nil => exact absurd rfl (Emits_ne_nil maxMoves dest hm)
      | cons k' ks' =>
        exact ⟨⟨le_refl _, hi, hv.1, hv.2, fun j h1 h2 => by omega⟩, hd, hlt, hm⟩
  | skipLimit visited u rest i hi hv hd hlt ih =>
    obtain ⟨L, e, p, m⟩ := ih
    refine ⟨L, ?_, p, fun ks hks => Emits_weaken maxMoves dest (m ks hks) (fun hh => hd hh.2.2)⟩
    rw [emitted_skip_limit maxMoves source dest visited u rest i hi hv hd hlt, e]
  | skipSquare visited u rest i hi hv ih =>
    obtain ⟨L, e, p, m⟩ := ih
    refine ⟨L, ?_, p, fun ks hks =>
      Emits_weaken maxMoves dest (m ks hks) (fun hh => hv ⟨hh.1, hh.2.1⟩)⟩
    rw [emitted_skip_square maxMoves source dest visited u rest i hi hv, e]

end Loop

/-! ## Consequences for the squares of a printed path -/

theorem travel_extend (u : listNode) (rest : list) (ks : List Nat) :
    travel (extend u rest ks) = travel (u :: rest) ++ walk u.data ks := by
  induction ks generalizing u rest with
  | nil => simp [extend, walk]
  | cons k ks ih =>
    rw [extend, ih]
    simp [travel_eq, walk]

theorem markVisited_eq_zero {visited : Grid} {v : graphNode} {r c : Int}
    (h : markVisited visited v r c = 0) : visited r c = 0 ∧ ¬ (r = v.row ∧ c = v.column) := by
  unfold markVisited at h
  split_ifs at h with e
  · exact absurd h (by decide)
  · exact ⟨h, e⟩

section Walk

variable {maxMoves : Int} {dest : graphNode}

theorem Emits_getLast {visited : Grid} {a : graphNode} {c : Int} {i : Nat} {ks : List Nat}
    (h : Emits maxMoves dest visited a c i ks) : (walk a ks).getLast? = some dest := by
  induction ks generalizing visited a c i with
  | nil => simp [Emits] at h
  | cons k ks ih =>
    cases ks with
    | nil => simp [walk, h.2]
    | cons k' ks =>
      have := ih h.2.2.2
      simpa [walk] using this

theorem Emits_unvisited {visited : Grid} {a : graphNode} {c : Int} {i : Nat} {ks : List Nat}
    (h : Emits maxMoves dest visited a c i ks) :
    ∀ sq ∈ walk a ks, isValid sq ≠ 0 ∧ visited sq.row sq.column = 0 := by
  induction ks generalizing visited a c i with
  | nil => simp [Emits] at h
  | cons k ks ih =>
    have hr := Emits_head maxMoves dest h
    cases ks with
    | nil =>
      intro sq hsq
      simp only [walk, List.mem_singleton] at hsq
      subst hsq
      exact ⟨hr.2.2.1, hr.2.2.2.1⟩
    | cons k' ks =>
      intro sq hsq
      rw [walk, List.mem_cons] at hsq
      rcases hsq with rfl | hsq
      · exact ⟨hr.2.2.1, hr.2.2.2.1⟩
      · obtain ⟨h1, h2⟩ := ih h.2.2.2 sq hsq
        exact ⟨h1, (markVisited_eq_zero h2).1⟩

theorem Emits_index_lt {visited : Grid} {a : graphNode} {c : Int} {i : Nat} {ks : List Nat}
    (h : Emits maxMoves dest visited a c i ks) : ∀ k ∈ ks, k < 8 := by
  induction ks generalizing visited a c i with
  | nil => simp
  | cons k ks ih =>
    have hr := Emits_head maxMoves dest h
    cases ks with
    | nil => simpa using hr.2.1
    | cons k' ks =>
      intro j hj
      rw [List.mem_cons] at hj
      rcases hj with rfl | hj
      · exact hr.2.1
      · exact ih h.2.2.2 j hj

theorem Emits_length {visited : Grid} {a : graphNode} {c : Int} {i : Nat} {ks : List Nat}
    (h : Emits maxMoves dest visited a c i ks) :
    ks.length = 1 ∨ c + (ks.length : Int) ≤ maxMoves + 1 := by
  induction ks generalizing visited a c i with
  | nil => simp [Emits] at h
  | cons k ks ih =>
    cases ks with
    | nil => left; rfl
    | cons k' ks =>
      right
      have hlt := h.2.2.1
      rcases ih h.2.2.2 with h1 | h1
      · simp only [List.length_cons] at h1 ⊢
        push_cast
        have : (ks.length : Int) = 0 := by omega
        omega
      · simp only [List.length_cons] at h1 ⊢
        push_cast at h1 ⊢
        omega

theorem Emits_dest_unvisited {visited : Grid} {a : graphNode} {c : Int} {i : Nat}
    {ks : List Nat} (h : Emits maxMoves dest visited a c i ks) :
    visited dest.row dest.column = 0 := by
  induction ks generalizing visited a c i with
  | nil => simp [Emits] at h
  | cons k ks ih =>
    cases ks with
    | nil =>
      have := h.1.2.2.2.1
      rwa [h.2] at this
    | cons k' ks => exact (markVisited_eq_zero (ih h.2.2.2)).1

end Walk

/-! ## The move table -/

theorem neighbour_inj {a : graphNode} {j k : Nat} (hj : j < 8) (hk : k < 8)
    (h : neighbour a j = neighbour a k) : j = k := by
  simp only [neighbour, graphNode.mk.injEq, add_right_inj] at h
  interval_cases j <;> interval_cases k <;> first | rfl | (exfalso; revert h; decide)

theorem neighbour_ne_self (a : graphNode) {k : Nat} (hk : k < 8) :
    ¬ ((neighbour a k).row = a.row ∧ (neighbour a k).column = a.column) := by
  simp only [neighbour]
  interval_cases k <;> simp [move_row]

theorem knightMove_neighbour (a : graphNode) {k : Nat} (hk : k < 8) :
    knightMove a (neighbour a k) := by
  refine ⟨k, ⟨hk, rfl, rfl⟩, ?_⟩
  rintro j ⟨hj, h1, h2⟩
  apply neighbour_inj hj hk
  simp only [neighbour] at h1 h2 ⊢
  rw [h1, h2]

theorem knightMove_iff (a b : graphNode) : knightMove a b ↔ ∃ k, k < 8 ∧ b = neighbour a k := by
  constructor
  · rintro ⟨k, ⟨hk, h1, h2⟩, -⟩
    refine ⟨k, hk, ?_⟩
    cases b
    simp only [neighbour] at h1 h2 ⊢
    rw [h1, h2]
  · rintro ⟨k, hk, rfl⟩
    exact knightMove_neighbour a hk

theorem walk_chain (a : graphNode) (ks : List Nat) (h : ∀ k ∈ ks, k < 8) :
    List.Chain knightMove a (walk a ks) := by
  induction ks generalizing a with
  | nil => exact List.Chain.nil
  | cons k ks ih =>
    have hk : k < 8 := h k (List.mem_cons_self _ _)
    exact List.Chain.cons (knightMove_neighbour a hk)
      (ih (neighbour a k) (fun j hj => h j (List.mem_cons_of_mem _ hj)))

theorem walk_length (a : graphNode) (ks : List Nat) : (walk a ks).length = ks.length := by
  induction ks generalizing a with
  | nil => rfl
  | cons k ks ih => simp [walk, ih]

/-! ## The search as `main` starts it -/

theorem search_eq (maxMoves : Int) (source dest : graphNode) :
    search maxMoves source dest =
      ⟨((emitted maxMoves source dest (markVisited (fun _ _ => FALSE) source)
          ⟨source, 1⟩ [] 0).length : Int),
        emitted maxMoves source dest (markVisited (fun _ _ => FALSE) source) ⟨source, 1⟩ [] 0,
        true⟩ := by
  have h1 := findPathsFrom_count maxMoves source dest (markVisited (fun _ _ => FALSE) source)
    ⟨source, 1⟩ [] 0
  have h2 := findPathsFrom_aborted maxMoves source dest (markVisited (fun _ _ => FALSE) source)
    ⟨source, 1⟩ [] 0 ⟨0, [], false⟩
  simp only [search, initStack, List.map, findPaths]
  cases hrun : findPathsFrom maxMoves source dest (markVisited (fun _ _ => FALSE) source)
    ⟨source, 1⟩ [] 0 ⟨0, [], false⟩ with
  | mk n pr ab =>
    rw [hrun] at h1 h2
    simp only [emitted, hrun] at h1 ⊢
    simp only at h2
    rw [h1, h2]

theorem search_path {maxMoves : Int} {source dest : graphNode} {p : list}
    (hp : p ∈ (search maxMoves source dest).printed) :
    ∃ ks, Emits maxMoves dest (markVisited (fun _ _ => FALSE) source) source 1 0 ks ∧
      travel p = source :: walk source ks := by
  rw [search_eq] at hp
  obtain ⟨L, e, -, m⟩ := emitted_spec maxMoves source dest
    (markVisited (fun _ _ => FALSE) source) ⟨source, 1⟩ [] 0
  simp only at hp
  rw [e] at hp
  obtain ⟨ks, hks, rfl⟩ := List.mem_map.1 hp
  refine ⟨ks, m ks hks, ?_⟩
  rw [travel_extend]
  simp [travel_eq]

theorem markVisited_self (visited : Grid) (v : graphNode) :
    markVisited visited v v.row v.column ≠ 0 := by
  simp [markVisited, TRUE]

/-- When the move limit is reached at a node, the loop prints the move to `dest` and nothing
else. -/
theorem emitted_at_limit (maxMoves : Int) (source dest : graphNode) (visited : Grid)
    (u : listNode) (rest : list) (k : Nat) (hk : k < 8) (hd : neighbour u.data k = dest)
    (hv : isValid dest ≠ 0 ∧ visited dest.row dest.column = 0)
    (hlim : ¬ u.itemCount < maxMoves) (i : Nat) (hi : i ≤ k) :
    emitted maxMoves source dest visited u rest i = [⟨dest, u.itemCount + 1⟩ :: u :: rest] := by
  obtain ⟨n, hn⟩ : ∃ n, k - i = n := ⟨_, rfl⟩
  induction n generalizing i with
  | zero =>
    have hik : i = k := by omega
    subst hik
    rw [emitted_found maxMoves source dest visited u rest i hk (by rw [hd]; exact hv) hd, hd]
  | succ n ih =>
    have hik : i < k := by omega
    have hne : ¬ neighbour u.data i = dest := by
      intro e
      have := neighbour_inj (by omega) hk (e.trans hd.symm)
      omega
    by_cases hsq : isValid (neighbour u.data i) ≠ 0 ∧
        visited (neighbour u.data i).row (neighbour u.data i).column = 0
    · rw [emitted_skip_limit maxMoves source dest visited u rest i (by omega) hsq hne hlim]
      exact ih (i + 1) (by omega) (by omega)
    · rw [emitted_skip_square maxMoves source dest visited u rest i (by omega) hsq]
      exact ih (i + 1) (by omega) (by omega)

/-! ## Claims

The statements below keep the preconditions of the search (on-board `source` and `dest`, positive
`maxMoves`) even where a proof does not need them.
-/

set_option linter.unusedVariables false

/-- C1 (evaluation at a failing input): with source A1 = (7,0), dest B3 = (5,1) and
`maxMoves = 3`, the search prints the single path A1 -> B3, although A1 -> C2 -> D4 -> B3 is a
simple knight path of 3 moves from A1 to B3: the loop at A1 returns at the move to B3 (table
index 2) and never tries the move to C2 (table index 6). -/
theorem findPaths_drops_later_offsets :
    simpleKnightPath 3 ⟨7, 0⟩ ⟨5, 1⟩ [⟨7, 0⟩, ⟨6, 2⟩, ⟨4, 3⟩, ⟨5, 1⟩] ∧
      (search 3 ⟨7, 0⟩ ⟨5, 1⟩).printed.map travel = [[⟨7, 0⟩, ⟨5, 1⟩]] ∧
      (search 3 ⟨7, 0⟩ ⟨5, 1⟩).numOfPaths = 1 ∧
      [⟨7, 0⟩, ⟨6, 2⟩, ⟨4, 3⟩, ⟨5, 1⟩] ∉ (search 3 ⟨7, 0⟩ ⟨5, 1⟩).printed.map travel := by
  have hrun : search 3 ⟨7, 0⟩ ⟨5, 1⟩ = ⟨1, [[⟨⟨5, 1⟩, 2⟩, ⟨⟨7, 0⟩, 1⟩]], true⟩ := by
    simp [search, findPaths, initStack, findPathsFrom_eq, neighbour, move_row, move_col, isValid,
      markVisited, TRUE, FALSE, intWrap]
  refine ⟨⟨⟨rfl, rfl, ?_, ?_⟩, by decide, by decide⟩, ?_, ?_, ?_⟩
  · intro sq hsq
    simp only [List.mem_cons, List.mem_singleton, List.not_mem_nil, or_false] at hsq
    rcases hsq with rfl | rfl | rfl | rfl <;> decide
  · have h1 : knightMove ⟨7, 0⟩ ⟨6, 2⟩ := knightMove_neighbour ⟨7, 0⟩ (k := 6) (by decide)
    have h2 : knightMove ⟨6, 2⟩ ⟨4, 3⟩ := knightMove_neighbour ⟨6, 2⟩ (k := 2) (by decide)
    have h3 : knightMove ⟨4, 3⟩ ⟨5, 1⟩ := knightMove_neighbour ⟨4, 3⟩ (k := 5) (by decide)
    simp [List.Chain', h1, h2, h3]
  · rw [hrun]; simp [travel_eq]
  · rw [hrun]
  · rw [hrun]; simp [travel_eq]

/-- C2: for on-board `source` and `dest` and `maxMoves > 0`, every path printed by the search
(stack `[source]`, grid marking `source` only) has `source` as its first square and `dest` as its
last square. -/
theorem findPaths_path_endpoints (maxMoves : Int) (source dest : graphNode)
    (hs : isValid source = TRUE) (hd : isValid dest = TRUE) (hm : 0 < maxMoves) :
    ∀ p ∈ (search maxMoves source dest).printed,
      (travel p).head? = some source ∧ (travel p).getLast? = some dest := by
  intro p hp
  obtain ⟨ks, hE, ht⟩ := search_path hp
  rw [ht]
  refine ⟨rfl, ?_⟩
  have hl := Emits_getLast hE
  cases hw : walk source ks with
  | nil => rw [hw] at hl; simp at hl
  | cons b w => rw [hw] at hl; rw [List.getLast?_cons_cons]; exact hl

theorem findPaths_path_endpoints_witness :
    isValid ⟨7, 0⟩ = TRUE ∧ isValid ⟨5, 1⟩ = TRUE ∧ (0 : Int) < 3 ∧
      ∀ p ∈ (search 3 ⟨7, 0⟩ ⟨5, 1⟩).printed,
        (travel p).head? = some ⟨7, 0⟩ ∧ (travel p).getLast? = some ⟨5, 1⟩ :=
  ⟨by decide, by decide, by decide,
    findPaths_path_endpoints 3 ⟨7, 0⟩ ⟨5, 1⟩ (by decide) (by decide) (by decide)⟩

/-- C6 (evaluation at a failing input): with source A1 = (7,0), dest B3 = (5,1) and
`maxMoves = 1`, the run counts and prints the path A1 -> B3 and is then aborted: the `clearStack`
at the end of `printStackAsQueue` reads a freed cell, so `findPaths` does not return and the
count is never reported.  For every input the counter equals the number of printed paths at the
point where the run stops, and the run is aborted there. -/
theorem findPaths_aborts_after_print :
    (search 1 ⟨7, 0⟩ ⟨5, 1⟩).numOfPaths = 1 ∧
      (search 1 ⟨7, 0⟩ ⟨5, 1⟩).printed.map travel = [[⟨7, 0⟩, ⟨5, 1⟩]] ∧
      (search 1 ⟨7, 0⟩ ⟨5, 1⟩).aborted = true ∧
      ∀ (maxMoves : Int) (source dest : graphNode),
        (search maxMoves source dest).numOfPaths
            = ((search maxMoves source dest).printed.length : Int) ∧
          (search maxMoves source dest).aborted = true := by
  have hrun : search 1 ⟨7, 0⟩ ⟨5, 1⟩ = ⟨1, [[⟨⟨5, 1⟩, 2⟩, ⟨⟨7, 0⟩, 1⟩]], true⟩ := by
    simp [search, findPaths, initStack, findPathsFrom_eq, neighbour, move_row, move_col, isValid,
      markVisited, TRUE, FALSE, intWrap]
  refine ⟨?_, ?_, ?_, ?_⟩
  · rw [hrun]
  · rw [hrun]; simp [travel_eq]
  · rw [hrun]
  · intro maxMoves source dest
    rw [search_eq]
    exact ⟨rfl, rfl⟩

/-- C8: for an on-board square `sq` and `maxMoves > 0`, the search with source = dest = `sq`
prints no path and leaves the count at 0. -/
theorem findPaths_same_square (maxMoves : Int) (sq : graphNode)
    (hs : isValid sq = TRUE) (hm : 0 < maxMoves) :
    (search maxMoves sq sq).printed = [] ∧ (search maxMoves sq sq).numOfPaths = 0 := by
  have hnil : (search maxMoves sq sq).printed = [] := by
    rw [List.eq_nil_iff_forall_not_mem]
    intro p hp
    obtain ⟨ks, hE, -⟩ := search_path hp
    exact markVisited_self _ sq (Emits_dest_unvisited hE)
  refine ⟨hnil, ?_⟩
  have hc : (search maxMoves sq sq).numOfPaths
      = ((search maxMoves sq sq).printed.length : Int) := by rw [search_eq]
  rw [hc, hnil]
  rfl

theorem findPaths_same_square_witness :
    isValid ⟨7, 0⟩ = TRUE ∧ (0 : Int) < 5 ∧
      ((search 5 ⟨7, 0⟩ ⟨7, 0⟩).printed = [] ∧ (search 5 ⟨7, 0⟩ ⟨7, 0⟩).numOfPaths = 0) :=
  ⟨by decide, by decide, findPaths_same_square 5 ⟨7, 0⟩ (by decide) (by decide)⟩

/-- C9: for on-board `source` and `dest` and `maxMoves > 0`, if no sequence of at most `maxMoves`
knight moves on the board leads from `source` to `dest` (the limit is below the knight distance),
the search prints no path and the count stays 0. -/
theorem findPaths_below_distance (maxMoves : Int) (source dest : graphNode)
    (hs : isValid source = TRUE) (hd : isValid dest = TRUE) (hm : 0 < maxMoves)
    (hfar : ∀ w : List graphNode, knightWalk source dest w → ¬ (w.length : Int) ≤ maxMoves + 1) :
    (search maxMoves source dest).printed = [] ∧ (search maxMoves source dest).numOfPaths = 0 := by
  have hnil : (search maxMoves source dest).printed = [] := by
    rw [List.eq_nil_iff_forall_not_mem]
    intro p hp
    obtain ⟨ks, hE, ht⟩ := search_path hp
    apply hfar (source :: walk source ks)
    · refine ⟨rfl, ?_, ?_, walk_chain source ks (Emits_index_lt hE)⟩
      · have hl := Emits_getLast hE
        cases hw : walk source ks with
        | nil => rw [hw] at hl; simp at hl
        | cons b w => rw [hw] at hl; rw [List.getLast?_cons_cons]; exact hl
      · intro sq hsq
        rw [List.mem_cons] at hsq
        rcases hsq with rfl | hsq
        · exact hs
        · exact (isValid_eq_TRUE_iff _).2 (Emits_unvisited hE sq hsq).1
    · rw [List.length_cons, walk_length]
      rcases Emits_length hE with h | h
      · rw [h]; push_cast; omega
      · push_cast; omega
  refine ⟨hnil, ?_⟩
  have hc : (search maxMoves source dest).numOfPaths
      = ((search maxMoves source dest).printed.length : Int) := by rw [search_eq]
  rw [hc, hnil]
  rfl

theorem findPaths_below_distance_witness :
    isValid ⟨7, 0⟩ = TRUE ∧ isValid ⟨0, 7⟩ = TRUE ∧ (0 : Int) < 1 ∧
      (∀ w : List graphNode, knightWalk ⟨7, 0⟩ ⟨0, 7⟩ w → ¬ (w.length : Int) ≤ 1 + 1) ∧
      ((search 1 ⟨7, 0⟩ ⟨0, 7⟩).printed = [] ∧ (search 1 ⟨7, 0⟩ ⟨0, 7⟩).numOfPaths = 0) := by
  have hfar : ∀ w : List graphNode, knightWalk ⟨7, 0⟩ ⟨0, 7⟩ w → ¬ (w.length : Int) ≤ 1 + 1 := by
    rintro w ⟨h1, h2, -, h4⟩ hlen
    match w, h1, h2, h4, hlen with
    | [], h1, _, _, _ => simp at h1
    | [a], h1, h2, _, _ =>
      simp only [List.head?_cons, Option.some.injEq, List.getLast?_singleton] at h1 h2
      rw [h1] at h2
      exact absurd h2 (by decide)
    | [a, b], h1, h2, h4, _ =>
      simp only [List.head?_cons, Option.some.injEq, List.getLast?_cons_cons,
        List.getLast?_singleton] at h1 h2
      subst h1 h2
      simp only [List.chain'_cons, List.chain'_singleton, and_true] at h4
      obtain ⟨k, hk, hb⟩ := (knightMove_iff _ _).1 h4
      simp only [neighbour, graphNode.mk.injEq] at hb
      interval_cases k <;> simp [move_row, move_col] at hb
    | _ :: _ :: _ :: _, _, _, _, hlen =>
      simp only [List.length_cons] at hlen
      push_cast at hlen
      omega
  exact ⟨by decide, by decide, by decide, hfar,
    findPaths_below_distance 1 ⟨7, 0⟩ ⟨0, 7⟩ (by decide) (by decide) (by decide) hfar⟩

/-- C10: for on-board `source` and `dest` with `dest` exactly one knight move from `source`, the
search with `maxMoves = 1` prints exactly one path, the two squares `source`, `dest`, and the
count is 1. -/
theorem findPaths_one_move (source dest : graphNode)
    (hs : isValid source = TRUE) (hd : isValid dest = TRUE) (hk : knightMove source dest) :
    (search 1 source dest).printed.map travel = [[source, dest]] ∧
      (search 1 source dest).numOfPaths = 1 := by
  obtain ⟨k, hk8, rfl⟩ := (knightMove_iff _ _).1 hk
  have hv : isValid (neighbour source k) ≠ 0 ∧
      markVisited (fun _ _ => FALSE) source (neighbour source k).row (neighbour source k).column
        = 0 := by
    refine ⟨(isValid_eq_TRUE_iff _).1 hd, ?_⟩
    simp only [markVisited, if_neg (neighbour_ne_self source hk8)]
    rfl
  have he := emitted_at_limit 1 source (neighbour source k)
    (markVisited (fun _ _ => FALSE) source) ⟨source, 1⟩ [] k hk8 rfl hv (by simp) 0 (Nat.zero_le _)
  rw [search_eq, he]
  simp [travel_eq]

theorem findPaths_one_move_witness :
    isValid ⟨7, 0⟩ = TRUE ∧ isValid ⟨5, 1⟩ = TRUE ∧ knightMove ⟨7, 0⟩ ⟨5, 1⟩ ∧
      ((search 1 ⟨7, 0⟩ ⟨5, 1⟩).printed.map travel = [[⟨7, 0⟩, ⟨5, 1⟩]] ∧
        (search 1 ⟨7, 0⟩ ⟨5, 1⟩).numOfPaths = 1) :=
  ⟨by decide, by decide, knightMove_neighbour ⟨7, 0⟩ (k := 2) (by decide),
    findPaths_one_move ⟨7, 0⟩ ⟨5, 1⟩ (by decide) (by decide)
      (knightMove_neighbour ⟨7, 0⟩ (k := 2) (by decide))⟩

/-! ## Notation and printing: basic facts -/

theorem coordinatesToPos_onBoard (sq : graphNode) (h : isValid sq = TRUE) :
    coordinatesToPos sq = some (algebraic sq) ∧ posToCoordinates (algebraic sq) = some sq := by
  have hb := (isValid_ne_zero_iff sq).1 ((isValid_eq_TRUE_iff sq).1 h)
  obtain ⟨r, c⟩ := sq
  simp only at hb
  obtain ⟨h1, h2, h3, h4⟩ := hb
  interval_cases r <;> interval_cases c <;> exact ⟨by decide, by decide⟩

theorem posToCoordinates_inRange (f r : Char) (hf1 : 'A' ≤ f) (hf2 : f ≤ 'H') (hr1 : '1' ≤ r)
    (hr2 : r ≤ '8') :
    posToCoordinates (String.mk [f, r])
        = some ⟨8 - ((r.toNat : Int) - ('0'.toNat : Int)), (f.toNat : Int) - ('A'.toNat : Int)⟩ ∧
      (posToCoordinates (String.mk [f, r])).bind coordinatesToPos = some (String.mk [f, r]) := by
  have a1 : 65 ≤ f.toNat := hf1
  have a2 : f.toNat ≤ 72 := hf2
  have a3 : 49 ≤ r.toNat := hr1
  have a4 : r.toNat ≤ 56 := hr2
  have ef : f = Char.ofNat f.toNat := (Char.ofNat_toNat f).symm
  have er : r = Char.ofNat r.toNat := (Char.ofNat_toNat r).symm
  generalize f.toNat = n at a1 a2 ef
  generalize r.toNat = m at a3 a4 er
  subst ef er
  interval_cases n <;> interval_cases m <;> exact ⟨by decide, by decide⟩

theorem charAsInt_byte (c : Char) (h : c.toNat < 256) :
    charAsInt c = if c.toNat < 128 then (c.toNat : Int) else (c.toNat : Int) - 256 := by
  unfold charAsInt
  rw [Nat.mod_eq_of_lt h]

theorem posToCoordinates_mk (f r : Char) :
    posToCoordinates (String.mk [f, r]) =
      if charAsInt f = 65 then some ⟨8 - charAsInt r + 48, 0⟩
      else if charAsInt f = 66 then some ⟨8 - charAsInt r + 48, 1⟩
      else if charAsInt f = 67 then some ⟨8 - charAsInt r + 48, 2⟩
      else if charAsInt f = 68 then some ⟨8 - charAsInt r + 48, 3⟩
      else if charAsInt f = 69 then some ⟨8 - charAsInt r + 48, 4⟩
      else if charAsInt f = 70 then some ⟨8 - charAsInt r + 48, 5⟩
      else if charAsInt f = 71 then some ⟨8 - charAsInt r + 48, 6⟩
      else if charAsInt f = 72 then some ⟨8 - charAsInt r + 48, 7⟩
      else none := rfl

theorem posToCoordinates_badFile (f r : Char) (hf : f.toNat < 256) (h : f < 'A' ∨ 'H' < f) :
    posToCoordinates (String.mk [f, r]) = none := by
  have h' : f.toNat < 65 ∨ 72 < f.toNat := h
  have hc := charAsInt_byte f hf
  have hne : charAsInt f < 65 ∨ 72 < charAsInt f := by
    rw [hc]
    split_ifs <;> omega
  rw [posToCoordinates_mk]
  repeat rw [if_neg (by omega)]

theorem posToCoordinates_badRank (f r : Char) (hf1 : 'A' ≤ f) (hf2 : f ≤ 'H')
    (hr : r.toNat < 256) (h : r < '1' ∨ '8' < r) :
    ∃ sq, posToCoordinates (String.mk [f, r]) = some sq ∧
      sq.column = (f.toNat : Int) - ('A'.toNat : Int) ∧
      sq.row = 8 - (charAsInt r - ('0'.toNat : Int)) ∧ isValid sq = FALSE := by
  have a1 : 65 ≤ f.toNat := hf1
  have a2 : f.toNat ≤ 72 := hf2
  have h' : r.toNat < 49 ∨ 56 < r.toNat := h
  have hcf := charAsInt_byte f (by omega)
  rw [if_pos (by omega)] at hcf
  have hcr := charAsInt_byte r hr
  have hr' : charAsInt r < 49 ∨ 56 < charAsInt r := by
    rw [hcr]
    split_ifs <;> omega
  have h0 : ('0'.toNat : Int) = 48 := by decide
  have hA : ('A'.toNat : Int) = 65 := by decide
  refine ⟨⟨8 - charAsInt r + 48, (f.toNat : Int) - 65⟩, ?_, ?_, ?_, ?_⟩
  · rw [posToCoordinates_mk, hcf]
    generalize f.toNat = n at a1 a2
    interval_cases n <;> simp
  · simp only [hA]
  · simp only [h0]; ring
  · simp only [isValid]
    rw [if_pos]
    omega

/-- A rank character with a code above 127 is read as a negative `int`: after the file letter
`A`, the character with code 233 gives row 8 - (233 - 256) + 48 = 79. -/
theorem posToCoordinates_signed_char :
    posToCoordinates (String.mk ['A', Char.ofNat 233]) = some ⟨79, 0⟩ := by
  decide

theorem intercalate_go_append (sep x acc : String) (l : List String) :
    String.intercalate.go (x ++ acc) sep l = x ++ String.intercalate.go acc sep l := by
  induction l generalizing acc with
  | nil => rfl
  | cons c l ih =>
    simp only [String.intercalate.go]
    rw [String.append_assoc, String.append_assoc, ih, String.append_assoc]

theorem intercalate_cons_cons (sep a b : String) (l : List String) :
    String.intercalate sep (a :: b :: l) = a ++ sep ++ String.intercalate sep (b :: l) := by
  simp only [String.intercalate, String.intercalate.go]
  rw [intercalate_go_append]

theorem printQueue_eq (q : list) (h : ∀ c ∈ q, isValid c.data = TRUE) :
    printQueue q = some (String.intercalate " -> " (q.map fun c => algebraic c.data)) := by
  induction q with
  | nil => rfl
  | cons curr next ih =>
    have hc := (coordinatesToPos_onBoard curr.data (h curr (List.mem_cons_self _ _))).1
    have hn := ih (fun c hc => h c (List.mem_cons_of_mem _ hc))
    cases next with
    | nil =>
      simp only [printQueue, hc]
      simp [String.intercalate, String.intercalate.go]
    | cons c next =>
      simp only [printQueue] at hn ⊢
      simp only [hc, hn, List.map_cons]
      rw [intercalate_cons_cons]

/-! ## Claims, continued -/

/-- C11: symmetry is not guaranteed.  There are on-board squares `A`, `B` and a positive limit `n`
for which the search from `A` to `B` and the search from `B` to `A` find different numbers of
paths: from B8 = (0,1) to A6 = (2,0) with limit 3 the path B8 -> A6 is counted and printed (count
1), from A6 to B8 with limit 3 the run stops after the branch A6 -> B4 -> A2 with nothing counted
or printed (count 0). -/
theorem findPaths_not_symmetric :
    ∃ (A B : graphNode) (n : Int), isValid A = TRUE ∧ isValid B = TRUE ∧ 0 < n ∧
      (search n A B).numOfPaths = 1 ∧ (search n A B).printed.length = 1 ∧
      (search n B A).numOfPaths = 0 ∧ (search n B A).printed.length = 0 ∧
      (search n A B).numOfPaths ≠ (search n B A).numOfPaths := by
  have h1 : search 3 ⟨0, 1⟩ ⟨2, 0⟩ = ⟨1, [[⟨⟨2, 0⟩, 2⟩, ⟨⟨0, 1⟩, 1⟩]], true⟩ := by
    simp [search, findPaths, initStack, findPathsFrom_eq, neighbour, move_row, move_col, isValid,
      markVisited, TRUE, FALSE, intWrap]
  have h2 : search 3 ⟨2, 0⟩ ⟨0, 1⟩ = ⟨0, [], true⟩ := by
    simp [search, findPaths, initStack, findPathsFrom_eq, neighbour, move_row, move_col, isValid,
      markVisited, TRUE, FALSE, intWrap]
  refine ⟨⟨0, 1⟩, ⟨2, 0⟩, 3, by decide, by decide, by decide, ?_⟩
  rw [h1, h2]
  simp

/-- C19 (evaluation at a failing input): with source A1 = (7,0), dest C2 = (6,2) and limit 2, the
one-move path A1 -> C2 is a simple knight path that meets the condition of the claim (it has no
square with two squares after it), yet it is not printed: the loop at A1 first calls `findPaths`
for B3 (offset 2), that call finds nothing, runs into `clearStack` after its loop and the run is
aborted before offset 6, the move to C2, is tried. -/
theorem findPaths_misses_direct_move :
    simpleKnightPath 2 ⟨7, 0⟩ ⟨6, 2⟩ [⟨7, 0⟩, ⟨6, 2⟩] ∧
      (∀ j, j + 2 < ([⟨7, 0⟩, ⟨6, 2⟩] : List graphNode).length → ∀ d, d < 8 →
        neighbour (([⟨7, 0⟩, ⟨6, 2⟩] : List graphNode).getD j ⟨7, 0⟩) d = ⟨6, 2⟩ →
          moveIndex (([⟨7, 0⟩, ⟨6, 2⟩] : List graphNode).getD j ⟨7, 0⟩)
            (([⟨7, 0⟩, ⟨6, 2⟩] : List graphNode).getD (j + 1) ⟨7, 0⟩) < d) ∧
      (search 2 ⟨7, 0⟩ ⟨6, 2⟩).printed = [] ∧
      (search 2 ⟨7, 0⟩ ⟨6, 2⟩).aborted = true ∧
      [⟨7, 0⟩, ⟨6, 2⟩] ∉ (search 2 ⟨7, 0⟩ ⟨6, 2⟩).printed.map travel := by
  have hrun : search 2 ⟨7, 0⟩ ⟨6, 2⟩ = ⟨0, [], true⟩ := by
    simp [search, findPaths, initStack, findPathsFrom_eq, neighbour, move_row, move_col, isValid,
      markVisited, TRUE, FALSE, intWrap]
  refine ⟨⟨⟨rfl, rfl, ?_, ?_⟩, by decide, by decide⟩, ?_, ?_, ?_, ?_⟩
  · intro sq hsq
    simp only [List.mem_cons, List.mem_singleton, List.not_mem_nil, or_false] at hsq
    rcases hsq with rfl | rfl <;> decide
  · have h1 : knightMove ⟨7, 0⟩ ⟨6, 2⟩ := knightMove_neighbour ⟨7, 0⟩ (k := 6) (by decide)
    simp [List.Chain', h1]
  · intro j hj
    simp only [List.length_cons, List.length_nil] at hj
    omega
  · rw [hrun]
  · rw [hrun]
  · rw [hrun]; simp

/-- C20 (evaluation at a failing input): with source A1 = (7,0) and dest C2 = (6,2), the limit 1
counts and prints the path A1 -> C2, while the limit 2 counts and prints nothing (the run is
aborted in the branch through B3): the list printed with limit 1 is no sublist of the list
printed with limit 2, and the count goes down from 1 to 0. -/
theorem findPaths_limit_two_prints_less :
    (search 1 ⟨7, 0⟩ ⟨6, 2⟩).printed.map travel = [[⟨7, 0⟩, ⟨6, 2⟩]] ∧
      (search 1 ⟨7, 0⟩ ⟨6, 2⟩).numOfPaths = 1 ∧
      (search (1 + 1) ⟨7, 0⟩ ⟨6, 2⟩).printed.map travel = [] ∧
      (search (1 + 1) ⟨7, 0⟩ ⟨6, 2⟩).numOfPaths = 0 ∧
      ¬ List.Sublist ((search 1 ⟨7, 0⟩ ⟨6, 2⟩).printed.map travel)
        ((search (1 + 1) ⟨7, 0⟩ ⟨6, 2⟩).printed.map travel) ∧
      ¬ (search 1 ⟨7, 0⟩ ⟨6, 2⟩).numOfPaths ≤ (search (1 + 1) ⟨7, 0⟩ ⟨6, 2⟩).numOfPaths := by
  have h1 : search 1 ⟨7, 0⟩ ⟨6, 2⟩ = ⟨1, [[⟨⟨6, 2⟩, 2⟩, ⟨⟨7, 0⟩, 1⟩]], true⟩ := by
    simp [search, findPaths, initStack, findPathsFrom_eq, neighbour, move_row, move_col, isValid,
      markVisited, TRUE, FALSE, intWrap]
  have h2 : search (1 + 1) ⟨7, 0⟩ ⟨6, 2⟩ = ⟨0, [], true⟩ := by
    simp [search, findPaths, initStack, findPathsFrom_eq, neighbour, move_row, move_col, isValid,
      markVisited, TRUE, FALSE, intWrap]
  rw [h1, h2]
  simp [travel_eq]

/-- C12: `coordinatesToPos` is the inverse of `posToCoordinates`.  For an on-board square `sq`,
`coordinatesToPos` does not take its error branch and `posToCoordinates` maps its result back to
`sq`; for a 2-character text with file `f` in `A`..`H` and rank `r` in `1`..`8`,
`posToCoordinates` returns a square that `coordinatesToPos` maps back to the text. -/
theorem coordinatesToPos_posToCoordinates_inverse (sq : graphNode) (hsq : isValid sq = TRUE)
    (f r : Char) (hf1 : 'A' ≤ f) (hf2 : f ≤ 'H') (hr1 : '1' ≤ r) (hr2 : r ≤ '8') :
    (∃ t, coordinatesToPos sq = some t ∧ posToCoordinates t = some sq) ∧
      (∃ sq', posToCoordinates (String.mk [f, r]) = some sq' ∧
        coordinatesToPos sq' = some (String.mk [f, r])) := by
  refine ⟨⟨algebraic sq, coordinatesToPos_onBoard sq hsq⟩, ?_⟩
  obtain ⟨h1, h2⟩ := posToCoordinates_inRange f r hf1 hf2 hr1 hr2
  rw [h1] at h2
  exact ⟨_, h1, h2⟩

theorem coordinatesToPos_posToCoordinates_inverse_witness :
    isValid ⟨5, 1⟩ = TRUE ∧ 'A' ≤ 'D' ∧ 'D' ≤ 'H' ∧ '1' ≤ '4' ∧ '4' ≤ '8' ∧
      ((∃ t, coordinatesToPos ⟨5, 1⟩ = some t ∧ posToCoordinates t = some ⟨5, 1⟩) ∧
        (∃ sq', posToCoordinates (String.mk ['D', '4']) = some sq' ∧
          coordinatesToPos sq' = some (String.mk ['D', '4']))) :=
  ⟨by decide, by decide, by decide, by decide, by decide,
    coordinatesToPos_posToCoordinates_inverse ⟨5, 1⟩ (by decide) 'D' '4'
      (by decide) (by decide) (by decide) (by decide)⟩

/-- C13: for a 2-character text with file letter `f` in `A`..`H` and rank digit `r` in `1`..`8`,
`posToCoordinates` returns the square whose column is the index of the file (`A` is 0, `H` is 7)
and whose row is 8 minus the value of the rank digit (rank 8 is row 0, rank 1 is row 7). -/
theorem posToCoordinates_value (f r : Char) (hf1 : 'A' ≤ f) (hf2 : f ≤ 'H') (hr1 : '1' ≤ r)
    (hr2 : r ≤ '8') :
    posToCoordinates (String.mk [f, r])
      = some ⟨8 - ((r.toNat : Int) - ('0'.toNat : Int)), (f.toNat : Int) - ('A'.toNat : Int)⟩ :=
  (posToCoordinates_inRange f r hf1 hf2 hr1 hr2).1

theorem posToCoordinates_value_witness :
    'A' ≤ 'H' ∧ 'H' ≤ 'H' ∧ '1' ≤ '8' ∧ '8' ≤ '8' ∧
      posToCoordinates (String.mk ['H', '8'])
        = some ⟨8 - (('8'.toNat : Int) - ('0'.toNat : Int)),
            ('H'.toNat : Int) - ('A'.toNat : Int)⟩ :=
  ⟨by decide, by decide, by decide, by decide,
    posToCoordinates_value 'H' '8' (by decide) (by decide) (by decide) (by decide)⟩

/-- C14 (counterexample): the text `A9` has its rank digit outside `1`..`8`, yet
`posToCoordinates` does not fail on it: it returns the square with row -1 and column 0, which is
off the board. -/
theorem posToCoordinates_accepts_rank_nine :
    (('9' : Char) < '1' ∨ '8' < ('9' : Char)) ∧
      posToCoordinates (String.mk ['A', '9']) = some ⟨-1, 0⟩ ∧
      posToCoordinates (String.mk ['A', '9']) ≠ none ∧ isValid ⟨-1, 0⟩ = FALSE := by
  decide

/-- C14 (amended): for a 2-character text (characters with codes below 256) whose file letter is
outside `A`..`H`, `posToCoordinates` fails.  The rank character is not tested: for a file letter
in `A`..`H` and a rank character outside `1`..`8`, `posToCoordinates` does not fail and returns
the square whose column is the index of the file and whose row is 8 minus the value of the
character (read as a signed `char`) minus `'0'`; that square is off the board. -/
theorem posToCoordinates_failure (f r : Char) (hf : f.toNat < 256) (hr : r.toNat < 256)
    (h : f < 'A' ∨ 'H' < f ∨ r < '1' ∨ '8' < r) :
    ((f < 'A' ∨ 'H' < f) → posToCoordinates (String.mk [f, r]) = none) ∧
      (('A' ≤ f ∧ f ≤ 'H') →
        ∃ sq, posToCoordinates (String.mk [f, r]) = some sq ∧
          sq.column = (f.toNat : Int) - ('A'.toNat : Int) ∧
          sq.row = 8 - (charAsInt r - ('0'.toNat : Int)) ∧ isValid sq = FALSE) := by
  refine ⟨posToCoordinates_badFile f r hf, ?_⟩
  rintro ⟨h1, h2⟩
  apply posToCoordinates_badRank f r h1 h2 hr
  rcases h with h | h | h | h
  · exact absurd h (not_lt.2 h1)
  · exact absurd h (not_lt.2 h2)
  · exact Or.inl h
  · exact Or.inr h

theorem posToCoordinates_failure_witness :
    ('A' : Char).toNat < 256 ∧ (Char.ofNat 233).toNat < 256 ∧
      (('A' : Char) < 'A' ∨ 'H' < ('A' : Char) ∨ Char.ofNat 233 < '1' ∨ '8' < Char.ofNat 233) ∧
      (((('A' : Char) < 'A' ∨ 'H' < ('A' : Char)) →
          posToCoordinates (String.mk ['A', Char.ofNat 233]) = none) ∧
        ((('A' : Char) ≤ 'A' ∧ ('A' : Char) ≤ 'H') →
          ∃ sq, posToCoordinates (String.mk ['A', Char.ofNat 233]) = some sq ∧
            sq.column = (('A' : Char).toNat : Int) - ('A'.toNat : Int) ∧
            sq.row = 8 - (charAsInt (Char.ofNat 233) - ('0'.toNat : Int)) ∧
            isValid sq = FALSE)) :=
  ⟨by decide, by decide, by decide,
    posToCoordinates_failure 'A' (Char.ofNat 233) (by decide) (by decide) (by decide)⟩

/-- C15: for a non-empty stack of on-board squares, `printStackAsQueue` prints one line: the
algebraic notations of the squares from the bottom of the stack (the source) to its head (the
destination), joined by `" -> "`, followed by a newline. -/
theorem printStackAsQueue_line (root : list) (hne : root ≠ [])
    (hval : ∀ c ∈ root, isValid c.data = TRUE) :
    printStackAsQueue root =
      some (String.intercalate " -> " ((root.map listNode.data).reverse.map algebraic)
        ++ "\n") := by
  cases root with
  | nil => exact absurd rfl hne
  | cons c root =>
    rw [printStackAsQueue, printQueue_eq]
    · simp only [stackAsQueue_eq, List.map_reverse, List.map_map]
      rfl
    · intro x hx
      rw [stackAsQueue_eq, List.mem_reverse] at hx
      exact hval x hx

theorem printStackAsQueue_line_witness :
    ([⟨⟨4, 3⟩, 3⟩, ⟨⟨5, 1⟩, 2⟩, ⟨⟨7, 0⟩, 1⟩] : list) ≠ [] ∧
      (∀ c ∈ ([⟨⟨4, 3⟩, 3⟩, ⟨⟨5, 1⟩, 2⟩, ⟨⟨7, 0⟩, 1⟩] : list), isValid c.data = TRUE) ∧
      printStackAsQueue [⟨⟨4, 3⟩, 3⟩, ⟨⟨5, 1⟩, 2⟩, ⟨⟨7, 0⟩, 1⟩] = some "A1 -> B3 -> D4\n" :=
  ⟨by decide, by decide,
    (printStackAsQueue_line [⟨⟨4, 3⟩, 3⟩, ⟨⟨5, 1⟩, 2⟩, ⟨⟨7, 0⟩, 1⟩] (by decide) (by decide)).trans
      (by decide)⟩

/-! ## The calls of `findPaths` -/

theorem callsAt_child {maxMoves : Int} {dest : graphNode} {parent child : Call}
    (h : callsAt maxMoves dest parent child) :
    ∃ u rest v, parent.activeList = u :: rest ∧ u.itemCount < maxMoves ∧
      child.activeList = ⟨v, u.itemCount + 1⟩ :: u :: rest ∧
      child.visited = markVisited parent.visited v := by
  obtain ⟨u, rest, i, h1, -, -, h4, rfl⟩ := h
  exact ⟨u, rest, neighbour u.data i, h1, h4, by simp [duplicateStack_eq, push_cons], rfl⟩

theorem markVisited_eq_TRUE_iff (visited : Grid) (v : graphNode) (r c : Int) :
    markVisited visited v r c = TRUE ↔ (⟨r, c⟩ : graphNode) = v ∨ visited r c = TRUE := by
  unfold markVisited
  have hv : (⟨r, c⟩ : graphNode) = v ↔ r = v.row ∧ c = v.column := by
    cases v; simp
  split_ifs with h
  · simp [hv, h]
  · simp [hv, h]

/-- In every reachable invocation the grid marks exactly the squares of the stack, every cell is
`TRUE` or `FALSE`, and the `itemCount` of the head is the length of the stack. -/
theorem Invoked_invariant {maxMoves : Int} {source dest : graphNode} {c : Call}
    (hc : Invoked maxMoves source dest c) :
    (∀ r col : Int, c.visited r col = TRUE ↔
        (⟨r, col⟩ : graphNode) ∈ c.activeList.map listNode.data) ∧
      (∀ r col : Int, c.visited r col = TRUE ∨ c.visited r col = FALSE) ∧
      (∃ u rest, c.activeList = u :: rest ∧ u.itemCount = (c.activeList.length : Int)) := by
  induction hc with
  | root =>
    refine ⟨?_, ?_, ⟨source, 1⟩, [], rfl, rfl⟩
    · intro r col
      rw [markVisited_eq_TRUE_iff]
      simp [initStack, FALSE, TRUE]
    · intro r col
      simp only [markVisited]
      split_ifs
      · exact Or.inl rfl
      · exact Or.inr rfl
  | step hp hcall ih =>
    obtain ⟨u, rest, v, h1, -, h3, h4⟩ := callsAt_child hcall
    obtain ⟨i1, i2, u0, rest0, i3, i4⟩ := ih
    refine ⟨?_, ?_, _, _, h3, ?_⟩
    · intro r col
      rw [h4, markVisited_eq_TRUE_iff, i1, h3, h1]
      simp
    · intro r col
      rw [h4]
      simp only [markVisited]
      split_ifs
      · exact Or.inl rfl
      · exact i2 r col
    · rw [h1] at i3 i4
      simp only [List.cons.injEq] at i3
      obtain ⟨rfl, rfl⟩ := i3
      rw [h3]
      simp only [List.length_cons] at i4 ⊢
      push_cast at i4 ⊢
      omega

/-! ## Claims, continued -/

/-- C16 (evaluation at a failing input): with source A1 = (7,0), dest B3 = (5,1) and limit 3, the
algorithm of the specification (all 8 offsets tried at every node, also after a match) yields
A1 -> B3 and A1 -> C2 -> D4 -> B3, while `findPaths` prints A1 -> B3 only: at A1 it returns when
offset 2 reaches B3 and offsets 3 to 7 are not tried. -/
theorem findPaths_stops_after_match :
    specSearch 3 ⟨7, 0⟩ ⟨5, 1⟩ = [[⟨7, 0⟩, ⟨5, 1⟩], [⟨7, 0⟩, ⟨6, 2⟩, ⟨4, 3⟩, ⟨5, 1⟩]] ∧
      (search 3 ⟨7, 0⟩ ⟨5, 1⟩).printed.map travel = [[⟨7, 0⟩, ⟨5, 1⟩]] ∧
      (search 3 ⟨7, 0⟩ ⟨5, 1⟩).printed.map travel ≠ specSearch 3 ⟨7, 0⟩ ⟨5, 1⟩ := by
  have hspec : specSearch 3 ⟨7, 0⟩ ⟨5, 1⟩
      = [[⟨7, 0⟩, ⟨5, 1⟩], [⟨7, 0⟩, ⟨6, 2⟩, ⟨4, 3⟩, ⟨5, 1⟩]] := by decide
  have hrun : (search 3 ⟨7, 0⟩ ⟨5, 1⟩).printed.map travel = [[⟨7, 0⟩, ⟨5, 1⟩]] := by
    have h : search 3 ⟨7, 0⟩ ⟨5, 1⟩ = ⟨1, [[⟨⟨5, 1⟩, 2⟩, ⟨⟨7, 0⟩, 1⟩]], true⟩ := by
      simp [search, findPaths, initStack, findPathsFrom_eq, neighbour, move_row, move_col,
        isValid, markVisited, TRUE, FALSE, intWrap]
    rw [h]
    simp [travel_eq]
  refine ⟨hspec, hrun, ?_⟩
  rw [hspec, hrun]
  decide

/-- C17: for on-board `source` and `dest` and `maxMoves > 0`, in every invocation of `findPaths`
reachable from the call made by `main`, a cell of the grid is `TRUE` exactly when its square is on
the stack of that invocation; so a square on the stack of another reachable invocation that is not
on this one's stack is not marked here. -/
theorem findPaths_visited_exact (maxMoves : Int) (source dest : graphNode)
    (hs : isValid source = TRUE) (hd : isValid dest = TRUE) (hm : 0 < maxMoves)
    (c : Call) (hc : Invoked maxMoves source dest c) :
    (∀ r col : Int, c.visited r col = TRUE ↔
        (⟨r, col⟩ : graphNode) ∈ c.activeList.map listNode.data) ∧
      (∀ c' : Call, Invoked maxMoves source dest c' →
        ∀ sq ∈ c'.activeList.map listNode.data, sq ∉ c.activeList.map listNode.data →
          c.visited sq.row sq.column = FALSE) := by
  obtain ⟨h1, h2, -⟩ := Invoked_invariant hc
  refine ⟨h1, ?_⟩
  intro c' _ sq _ hnot
  rcases h2 sq.row sq.column with h | h
  · exact absurd ((h1 sq.row sq.column).1 h) hnot
  · exact h

theorem findPaths_visited_exact_witness :
    isValid ⟨7, 0⟩ = TRUE ∧ isValid ⟨0, 7⟩ = TRUE ∧ (0 : Int) < 6 ∧
      Invoked 6 ⟨7, 0⟩ ⟨0, 7⟩
        ⟨markVisited (markVisited (fun _ _ => FALSE) ⟨7, 0⟩) ⟨5, 1⟩,
          [⟨⟨5, 1⟩, 2⟩, ⟨⟨7, 0⟩, 1⟩]⟩ ∧
      ((∀ r col : Int,
          markVisited (markVisited (fun _ _ => FALSE) ⟨7, 0⟩) ⟨5, 1⟩ r col = TRUE ↔
            (⟨r, col⟩ : graphNode) ∈
              ([⟨⟨5, 1⟩, 2⟩, ⟨⟨7, 0⟩, 1⟩] : list).map listNode.data) ∧
        (∀ c' : Call, Invoked 6 ⟨7, 0⟩ ⟨0, 7⟩ c' →
          ∀ sq ∈ c'.activeList.map listNode.data,
            sq ∉ ([⟨⟨5, 1⟩, 2⟩, ⟨⟨7, 0⟩, 1⟩] : list).map listNode.data →
              markVisited (markVisited (fun _ _ => FALSE) ⟨7, 0⟩) ⟨5, 1⟩ sq.row sq.column
                = FALSE)) := by
  have hinv : Invoked 6 ⟨7, 0⟩ ⟨0, 7⟩
      ⟨markVisited (markVisited (fun _ _ => FALSE) ⟨7, 0⟩) ⟨5, 1⟩,
        [⟨⟨5, 1⟩, 2⟩, ⟨⟨7, 0⟩, 1⟩]⟩ := by
    refine Invoked.step Invoked.root ⟨⟨⟨7, 0⟩, 1⟩, [], 2, rfl, ?_, by decide, by decide, rfl⟩
    refine ⟨by decide, by decide, by decide, by decide, ?_⟩
    intro j _ hj
    interval_cases j <;> decide
  exact ⟨by decide, by decide, by decide, hinv,
    findPaths_visited_exact 6 ⟨7, 0⟩ ⟨0, 7⟩ (by decide) (by decide) (by decide) _ hinv⟩

/-- C18 (the failing run): `findPaths` is not total on the inputs of the search.  For every
`maxMoves`, `source` and `dest`, the run started by `main` ends aborted: every way through the
loop of `findPaths` leads to a `clearStack` of a stack that has a cell, and `clearStack` reads
`curr->next` from the cell it has just freed.  In particular `findPaths` does not return for
source A1 = (7,0), dest B3 = (5,1), `maxMoves = 1`. -/
theorem findPaths_never_returns :
    (∀ (maxMoves : Int) (source dest : graphNode), (search maxMoves source dest).aborted = true) ∧
      (search 1 ⟨7, 0⟩ ⟨5, 1⟩).aborted = true := by
  have h : ∀ (maxMoves : Int) (source dest : graphNode),
      (search maxMoves source dest).aborted = true := by
    intro maxMoves source dest
    rw [search_eq]
  exact ⟨h, h 1 ⟨7, 0⟩ ⟨5, 1⟩⟩

end ChessKnightMoves
